import Mathlib

/-!
Verification of the Detection Fusion & Coordination Graph Engine
specification for the MIC-26 repository.

The repository ships the Next.js frontend in its source tree; the engine
components (FusionEngine, CaseGraphStore, CoordinationDetector) are
described by the specification and consumed by the frontend, so they are
modelled here from the specification text, while intake-form and
upload-page behaviour is embedded directly from the frontend source
(`components/IntakeForm.jsx`, the upload page).
-/

namespace MIC

/-! ## Fusion engine (spec section 4.2) -/

/-- Modelled from the spec: status of one analyzer's result
(`status ∈ {ok,error,timeout}`); the SignalCollector/FusionEngine
implementation is not part of the frontend source tree. -/
inductive SignalStatus where
  | ok
  | error
  | timeout
deriving DecidableEq

/-- Modelled from the spec: `SignalResult = {name, score ∈ [0,1]|null,
confidence, rationale, raw, status}`; fields not used by fusion are
omitted. Scores are embedded as exact rationals. -/
structure SignalResult where
  score : Option ℚ
  confidence : Option ℚ
  status : SignalStatus
deriving DecidableEq

/-- Base weight table `name -> weight`, in its fixed configuration order. -/
abbrev WeightTable := List (String × ℚ)

/-- The signal map `name -> SignalResult` delivered by the SignalCollector. -/
abbrev SignalMap := List (String × SignalResult)

/-- Ordered classification tiers: `(name, lower bound)`, ascending bounds. -/
abbrev TierTable := List (String × ℚ)

/-- Modelled from the spec: `available = {name: r.score for name,r in signals
if r.status=="ok" and r.score is not null}`, paired with each name's base
weight, kept in base-weight-table order. Entries are `(name, weight, score)`. -/
def availableOf (w : WeightTable) (m : SignalMap) : List (String × ℚ × ℚ) :=
  w.filterMap (fun p =>
    (m.lookup p.1).bind (fun r =>
      if r.status = .ok then r.score.map (fun s => (p.1, p.2, s)) else none))

/-- Total base weight of the available signals: `Σ(base_weight[m] for m in available)`. -/
def totalWeight (av : List (String × ℚ × ℚ)) : ℚ :=
  (av.map (fun t => t.2.1)).sum

/-- Modelled from the spec: weight redistribution
`new_weight[n] = base_weight[n] / Σ(base_weight[m] for m in available)`. -/
def redistributed (w : WeightTable) (m : SignalMap) : List (String × ℚ) :=
  (availableOf w m).map (fun t => (t.1, t.2.1 / totalWeight (availableOf w m)))

/-- Modelled from the spec: `composite_score = Σ new_weight[n] * available[n]`. -/
def compositeOf (av : List (String × ℚ × ℚ)) : ℚ :=
  (av.map (fun t => (t.2.1 / totalWeight av) * t.2.2)).sum

/-- The tier picked for a score: the last tier in the (ascending) table whose
lower bound is at most the score. Modelled from the spec:
"classification = highest tier whose lower bound ≤ composite_score". -/
def pickTier : TierTable → ℚ → Option (String × ℚ)
  | [], _ => none
  | t :: ts, x =>
    match pickTier ts x with
    | some u => some u
    | none => if t.2 ≤ x then some t else none

/-- Classification name for a score; "unknown" when no tier qualifies. -/
def classify (tiers : TierTable) (x : ℚ) : String :=
  ((pickTier tiers x).map Prod.fst).getD "unknown"

/-- The fusion result: composite score (null when no signal is available)
and classification. -/
structure FusionOutput where
  composite : Option ℚ
  classification : String
deriving DecidableEq

/-- Modelled from the spec: the FusionEngine algorithm (section 4.2,
steps 1-5). Pure function of the base weight table, the tier table and
the signal map. -/
def fuse (w : WeightTable) (tiers : TierTable) (m : SignalMap) : FusionOutput :=
  let av := availableOf w m
  if av = [] then ⟨none, "unknown"⟩
  else
    let s := compositeOf av
    ⟨some s, classify tiers s⟩

/-- The standard five-signal base weight table of the spec scenarios. -/
def stdWeights : WeightTable :=
  [("semantic", 2/5), ("safety", 1/4), ("ai_prob", 1/5),
   ("behavioral", 1/10), ("stylometric", 1/20)]

/-- The classification tiers of the spec (section 4.2): benign below 0.30,
suspicious in [0.30, 0.60), malicious in [0.60, 0.85), critical at 0.85 up. -/
def stdTiers : TierTable :=
  [("benign", 0), ("suspicious", 3/10), ("malicious", 3/5), ("critical", 17/20)]

/-- Scenario A of the spec: all five signals present. -/
def scenarioA : SignalMap :=
  [("semantic", ⟨some (4/5), some 1, .ok⟩),
   ("safety", ⟨some (1/5), some 1, .ok⟩),
   ("ai_prob", ⟨some (3/5), some 1, .ok⟩),
   ("behavioral", ⟨some (1/2), some 1, .ok⟩),
   ("stylometric", ⟨some (1/10), some 1, .ok⟩)]

/-- Scenario B of the spec: only semantic (0.9) and safety (0.1) available. -/
def scenarioB : SignalMap :=
  [("semantic", ⟨some (9/10), some 1, .ok⟩),
   ("safety", ⟨some (1/10), some 1, .ok⟩),
   ("ai_prob", ⟨none, none, .error⟩),
   ("behavioral", ⟨none, none, .timeout⟩),
   ("stylometric", ⟨none, none, .error⟩)]

/-- The available set of Scenario A, written out. -/
def availA : List (String × ℚ × ℚ) :=
  [("semantic", 2/5, 4/5), ("safety", 1/4, 1/5), ("ai_prob", 1/5, 3/5),
   ("behavioral", 1/10, 1/2), ("stylometric", 1/20, 1/10)]

/-- The available set of Scenario B, written out. -/
def availB : List (String × ℚ × ℚ) :=
  [("semantic", 2/5, 9/10), ("safety", 1/4, 1/10)]

/-- A signal map in which every configured analyzer failed. -/
def allFailed : SignalMap :=
  [("semantic", ⟨none, none, .error⟩),
   ("safety", ⟨none, none, .timeout⟩),
   ("ai_prob", ⟨none, none, .error⟩),
   ("behavioral", ⟨none, none, .timeout⟩),
   ("stylometric", ⟨none, none, .error⟩)]

/-- A signal map in which only the semantic analyzer succeeded. -/
def onlySemantic : SignalMap :=
  [("semantic", ⟨some (9/10), some 1, .ok⟩),
   ("safety", ⟨none, none, .error⟩),
   ("ai_prob", ⟨none, none, .error⟩),
   ("behavioral", ⟨none, none, .timeout⟩),
   ("stylometric", ⟨none, none, .error⟩)]

/-- Tier tables are sorted by ascending lower bound. -/
def sortedTiers (tiers : TierTable) : Prop :=
  tiers.Pairwise (fun a b => a.2 ≤ b.2)

/-! ## Case graph store (spec section 4.3) -/

/-- Modelled from the spec: node kinds of the case graph
(`kind ∈ {actor,content,platform,narrative_tag}`); the CaseGraphStore
implementation is not part of the frontend source tree. -/
inductive NodeKind where
  | actor
  | content
  | platform
  | narrativeTag
deriving DecidableEq

/-- A graph node; `first_seen`/`attrs` are not needed by the claims. -/
structure GraphNode where
  id : String
  kind : NodeKind
deriving DecidableEq

/-- Modelled from the spec: edge kinds `authored`, `posted_on`, `tagged`
(`peer_of` is never produced by case ingestion). -/
inductive EdgeKind where
  | authored
  | postedOn
  | tagged
deriving DecidableEq

/-- A graph edge accumulating the contributing case ids. -/
structure GraphEdge where
  src : String
  tgt : String
  kind : EdgeKind
  caseIds : List String
deriving DecidableEq

/-- The append-only graph owned by the CaseGraphStore. -/
structure GraphState where
  nodes : List GraphNode
  edges : List GraphEdge
deriving DecidableEq

/-- Graph ingestion input (spec section 6):
`{case_id, actor_id, platform, tags[]}`. -/
structure IngestInput where
  caseId : String
  actorId : String
  platform : String
  tags : List String
deriving DecidableEq

/-- Upsert: add a node unless one with its id is already present. -/
def upsertNode (s : GraphState) (n : GraphNode) : GraphState :=
  if s.nodes.any (fun q => decide (q.id = n.id)) then s
  else { s with nodes := s.nodes ++ [n] }

/-- Record a case id on an edge, without duplicating it. -/
def addCaseId (cid : String) (l : List String) : List String :=
  if cid ∈ l then l else l ++ [cid]

/-- Update one edge: when it matches the given endpoints and kind, record
the contributing case id on it. -/
def bumpEdge (src tgt : String) (k : EdgeKind) (cid : String) (e : GraphEdge) : GraphEdge :=
  if e.src = src ∧ e.tgt = tgt ∧ e.kind = k then
    { e with caseIds := addCaseId cid e.caseIds }
  else e

/-- Modelled from the spec: add an edge, accumulating the contributing
case ids; re-adding an edge for a case already attributed to it changes
nothing. -/
def addEdge (s : GraphState) (src tgt : String) (k : EdgeKind) (cid : String) : GraphState :=
  if s.edges.any (fun e => decide (e.src = src ∧ e.tgt = tgt ∧ e.kind = k)) then
    { s with edges := s.edges.map (bumpEdge src tgt k cid) }
  else
    { s with edges := s.edges ++ [⟨src, tgt, k, [cid]⟩] }

/-- Modelled from the spec: ingest of one resolved case (section 4.3) —
upsert an actor node, a content node (id = case_id), a platform node and
one narrative_tag node per tag; add `authored`, `posted_on` and `tagged`
edges, each accumulating the contributing case id. -/
def ingest (s : GraphState) (i : IngestInput) : GraphState :=
  let s1 := upsertNode s ⟨i.actorId, .actor⟩
  let s2 := upsertNode s1 ⟨i.caseId, .content⟩
  let s3 := upsertNode s2 ⟨i.platform, .platform⟩
  let s4 := i.tags.foldl (fun st tg => upsertNode st ⟨tg, .narrativeTag⟩) s3
  let s5 := addEdge s4 i.actorId i.caseId .authored i.caseId
  let s6 := addEdge s5 i.caseId i.platform .postedOn i.caseId
  i.tags.foldl (fun st tg => addEdge st i.caseId tg .tagged i.caseId) s6

/-- A sequence of ingests. -/
def ingestAll (s : GraphState) (l : List IngestInput) : GraphState :=
  l.foldl ingest s

def nodeCount (s : GraphState) : ℕ := s.nodes.length

def edgeCount (s : GraphState) : ℕ := s.edges.length

/-- The edges attributed to a case. -/
def caseEdges (s : GraphState) (cid : String) : List GraphEdge :=
  s.edges.filter (fun e => decide (cid ∈ e.caseIds))

/-- A node with the given id is present. -/
def hasNodeB (s : GraphState) (id0 : String) : Bool :=
  s.nodes.any (fun q => decide (q.id = id0))

/-- The given edge exists and is already attributed to the given case. -/
def edgeDone (s : GraphState) (src tgt : String) (k : EdgeKind) (cid : String) : Prop :=
  (∃ e ∈ s.edges, e.src = src ∧ e.tgt = tgt ∧ e.kind = k) ∧
  ∀ e ∈ s.edges, (e.src = src ∧ e.tgt = tgt ∧ e.kind = k) → cid ∈ e.caseIds

/-- Everything the ingest of a case writes is already present. -/
def ingestDone (s : GraphState) (i : IngestInput) : Prop :=
  hasNodeB s i.actorId = true ∧ hasNodeB s i.caseId = true ∧
  hasNodeB s i.platform = true ∧ (∀ tg ∈ i.tags, hasNodeB s tg = true) ∧
  edgeDone s i.actorId i.caseId .authored i.caseId ∧
  edgeDone s i.caseId i.platform .postedOn i.caseId ∧
  ∀ tg ∈ i.tags, edgeDone s i.caseId tg .tagged i.caseId

/-! ## Coordination detector (spec section 4.6) -/

/-- Modelled from the spec: one item of authored content — the actor who
authored it, the platform it was posted on, its narrative tags and its
timestamp (epoch seconds); the CoordinationDetector implementation is not
part of the frontend source tree. -/
structure Post where
  actor : String
  platform : String
  tags : List String
  time : ℤ
deriving DecidableEq

/-- Modelled from the spec: actor b is a coordination peer of actor a when
a and b each authored content sharing at least one narrative tag, on
platforms whose union has size at least two (their posts are on distinct
platforms), within the lookback window. -/
def qualifies (window : ℕ) (posts : List Post) (a b : String) : Bool :=
  decide (a ≠ b) &&
  posts.any (fun pa =>
    decide (pa.actor = a) &&
    posts.any (fun pb =>
      decide (pb.actor = b) &&
      pa.tags.any (fun t => pb.tags.any (fun u => decide (t = u))) &&
      decide (pa.platform ≠ pb.platform) &&
      decide (|pa.time - pb.time| ≤ (window : ℤ))))

/-- The distinct actors appearing in the posts. -/
def actorsOf (posts : List Post) : List String :=
  (posts.map (fun p => p.actor)).dedup

/-- Modelled from the spec: the actors for which the CoordinationDetector
emits a CoordinationAlert — those with at least one qualifying peer; the
spec's testable property demands an alert for every actor of a qualifying
pair, so the risk threshold is modelled as passed by every qualifying
peer. -/
def alertedActors (window : ℕ) (posts : List Post) : List String :=
  (actorsOf posts).filter (fun a =>
    (actorsOf posts).any (fun b => qualifies window posts a b))

/-- Scenario C of the spec: actor X posts the tag "election-fraud" on
platform P1, actor Y the same tag on platform P2 one hour later. -/
def scenarioCposts : List Post :=
  [⟨"actor-x", "platform-1", ["election-fraud"], 0⟩,
   ⟨"actor-y", "platform-2", ["election-fraud"], 3600⟩]

/-! ## Case record shape and its frontend consumers -/

/-- A JSON-like value, for the case record consumed by the frontend. -/
inductive Json where
  | null
  | num : ℚ → Json
  | str : String → Json
  | arr : List Json → Json
  | obj : List (String × Json) → Json

/-- JavaScript property access `j.k`: the value under key k of an object,
and undefined (null) otherwise. -/
def jget (j : Json) (k : String) : Json :=
  match j with
  | .obj fields =>
    match fields.lookup k with
    | some v => v
    | none => .null
  | _ => .null

/-- The field names of an object. -/
def jkeys (j : Json) : List String :=
  match j with
  | .obj fields => fields.map Prod.fst
  | _ => []

/-- Embedded from `components/IntakeForm.jsx` (CaseDetail, lines 475-477):
cluster data is read from `graphSummary.gnn_clusters` and kept only when
it is an array. -/
def gnnClustersOf (graphSummary : Json) : List Json :=
  match jget graphSummary "gnn_clusters" with
  | .arr l => l
  | _ => []

/-- Embedded from `components/IntakeForm.jsx` (CaseDetail, lines 478-480):
alerts are read from `graphSummary.coordination_alerts`. -/
def coordinationAlertsOf (graphSummary : Json) : List Json :=
  match jget graphSummary "coordination_alerts" with
  | .arr l => l
  | _ => []

/-- Embedded from `components/IntakeForm.jsx` (CaseDetail, lines 1236-1243):
the actor identifier of an alert is read from `alert.actor`. -/
def alertActorOf (alert : Json) : Json := jget alert "actor"

/-- Modelled from the spec: the field names of the case record's
graph_summary (section 6); the record assembly is not part of the
frontend source tree. -/
def graphSummaryKeys : List String :=
  ["node_count", "edge_count", "communities", "cluster_scores",
   "coordination_alerts", "propagation_chains"]

/-- Modelled from the spec: a graph_summary object of the case record
output `{node_count, edge_count, communities[], cluster_scores[],
coordination_alerts[], propagation_chains[]}`. -/
def mkGraphSummary (nodeC edgeC : ℚ)
    (communities clusterScores alerts chains : List Json) : Json :=
  .obj [("node_count", .num nodeC), ("edge_count", .num edgeC),
        ("communities", .arr communities), ("cluster_scores", .arr clusterScores),
        ("coordination_alerts", .arr alerts), ("propagation_chains", .arr chains)]

/-- Modelled from the spec: a CoordinationAlert record
`{actor_id, peer_actors[], shared_tags[], platforms[], risk}`. -/
def mkCoordinationAlert (actorId : String)
    (peerActors sharedTags platforms : List Json) (risk : ℚ) : Json :=
  .obj [("actor_id", .str actorId), ("peer_actors", .arr peerActors),
        ("shared_tags", .arr sharedTags), ("platforms", .arr platforms),
        ("risk", .num risk)]

/-! ## Frontend intake validation (components/IntakeForm.jsx, upload page) -/

/-- JavaScript `String.prototype.trim` on a list of characters. -/
def jsTrim (l : List Char) : List Char :=
  ((l.dropWhile Char.isWhitespace).reverse.dropWhile Char.isWhitespace).reverse

/-- `const minCharacters = 20` of `components/IntakeForm.jsx` (line 4). -/
def minCharacters : ℕ := 20

/-- The part of the intake payload the claims are about: the narrative text
and the region sent to the intake API. -/
structure IntakePayload where
  text : List Char
  region : List Char

/-- Embedded from `components/IntakeForm.jsx` handleSubmit (lines 187-213):
reject (none, API not called) when the narrative is empty or its trimmed
length is below minCharacters, or the region is blank; otherwise submit
the trimmed text. -/
def handleSubmit (text region : List Char) : Option IntakePayload :=
  if text = [] ∨ (jsTrim text).length < minCharacters then none
  else if region = [] ∨ jsTrim region = [] then none
  else some ⟨jsTrim text, jsTrim region⟩

/-- Embedded from the upload page handleAnalyze (part_004, line 74): the
text submitted for a file is the extracted text, or the raw file content
when none was extracted, truncated to 5000 characters. -/
def analyzeText (metaText content : List Char) : List Char :=
  (if metaText ≠ [] then metaText else content).take 5000

/-- Embedded from the upload page handleAnalyze (part_004, lines 64-118):
reject a file (none, API not called) when its truncated text is empty or
its trimmed length is below 20, or the region is blank; otherwise submit
the truncated (untrimmed) text. -/
def handleAnalyzeFile (metaText content region : List Char) : Option IntakePayload :=
  let text := analyzeText metaText content
  if text = [] ∨ (jsTrim text).length < 20 then none
  else if jsTrim region = [] then none
  else some ⟨text, jsTrim region⟩

/-! ## Lemmas about the fusion engine -/

lemma mem_availableOf {w : WeightTable} {m : SignalMap} {t : String × ℚ × ℚ}
    (h : t ∈ availableOf w m) : (t.1, t.2.1) ∈ w := by
  simp only [availableOf, List.mem_filterMap, Option.bind_eq_some] at h
  obtain ⟨p, hp, r, hlk, hf⟩ := h
  by_cases hst : r.status = .ok
  · rw [if_pos hst, Option.map_eq_some'] at hf
    obtain ⟨s, hsc, hts⟩ := hf
    subst hts
    simpa using hp
  · rw [if_neg hst] at hf; cases hf

lemma totalWeight_pos {w : WeightTable} {m : SignalMap}
    (hw : ∀ p ∈ w, 0 < p.2) (hne : availableOf w m ≠ []) :
    0 < totalWeight (availableOf w m) := by
  apply List.sum_pos
  · intro x hx
    simp only [List.mem_map] at hx
    obtain ⟨t, ht, rfl⟩ := hx
    exact hw _ (mem_availableOf ht)
  · simpa using hne

lemma availableOf_A : availableOf stdWeights scenarioA = availA := rfl

lemma compositeOf_A : compositeOf availA = 109/200 := by
  norm_num [compositeOf, totalWeight, availA]

lemma classify_A : classify stdTiers (109/200) = "suspicious" := by
  norm_num [classify, pickTier, stdTiers]

lemma fuse_A : fuse stdWeights stdTiers scenarioA = ⟨some (109/200), "suspicious"⟩ := by
  simp only [fuse, availableOf_A]
  rw [if_neg (by simp [availA])]
  rw [compositeOf_A, classify_A]

lemma availableOf_B : availableOf stdWeights scenarioB = availB := rfl

lemma compositeOf_B : compositeOf availB = 77/130 := by
  norm_num [compositeOf, totalWeight, availB]

lemma redistributed_B :
    redistributed stdWeights scenarioB = [("semantic", 8/13), ("safety", 5/13)] := by
  simp only [redistributed, availableOf_B]
  norm_num [availB, totalWeight]

lemma classify_B : classify stdTiers (77/130) = "suspicious" := by
  norm_num [classify, pickTier, stdTiers]

lemma fuse_B : fuse stdWeights stdTiers scenarioB = ⟨some (77/130), "suspicious"⟩ := by
  simp only [fuse, availableOf_B]
  rw [if_neg (by simp [availB])]
  rw [compositeOf_B, classify_B]

lemma pickTier_eq_none_iff (tiers : TierTable) (x : ℚ) :
    pickTier tiers x = none ↔ ∀ u ∈ tiers, ¬ u.2 ≤ x := by
  induction tiers with
  | nil => simp [pickTier]
  | cons t ts ih =>
    rcases h : pickTier ts x with _ | u
    · simp only [pickTier, h]
      by_cases hle : t.2 ≤ x
      · simp only [if_pos hle]
        constructor
        · intro hc; cases hc
        · intro hall; exact absurd hle (hall t (List.mem_cons_self t ts))
      · simp only [if_neg hle]
        constructor
        · intro _ u hu
          rcases List.mem_cons.mp hu with rfl | hu2
          · exact hle
          · exact (ih.mp h) u hu2
        · intro _; trivial
    · constructor
      · intro hc
        simp only [pickTier, h] at hc
        exact Option.noConfusion hc
      · intro hall
        have hn : pickTier ts x = none :=
          ih.mpr fun v hv => hall v (List.mem_cons_of_mem _ hv)
        rw [hn] at h; cases h

lemma pickTier_some_spec (tiers : TierTable) (x : ℚ) (t : String × ℚ)
    (hs : sortedTiers tiers) (h : pickTier tiers x = some t) :
    t ∈ tiers ∧ t.2 ≤ x ∧ ∀ u ∈ tiers, u.2 ≤ x → u.2 ≤ t.2 := by
  induction tiers with
  | nil => cases h
  | cons a ts ih =>
    rw [sortedTiers, List.pairwise_cons] at hs
    obtain ⟨ha, hts⟩ := hs
    simp only [pickTier] at h
    rcases hrec : pickTier ts x with _ | u
    · rw [hrec] at h
      by_cases hle : a.2 ≤ x
      · rw [if_pos hle] at h
        cases h
        refine ⟨List.mem_cons_self _ _, hle, ?_⟩
        intro u hu hule
        rcases List.mem_cons.mp hu with rfl | hu2
        · exact le_refl _
        · exact absurd hule ((pickTier_eq_none_iff ts x).mp hrec u hu2)
      · rw [if_neg hle] at h; cases h
    · rw [hrec] at h
      cases h
      obtain ⟨hmem, hle, hmax⟩ := ih hts hrec
      refine ⟨List.mem_cons_of_mem _ hmem, hle, ?_⟩
      intro u hu hule
      rcases List.mem_cons.mp hu with rfl | hu2
      · exact ha _ hmem
      · exact hmax u hu2 hule

/-! ## Claim theorems for the fusion engine -/

/-- Claim C1: the FusionEngine is deterministic — for every SignalResult map
and configuration (base weight table and classification tiers), two runs of
the fusion computation on identical inputs produce the same composite score
and the same classification. -/
theorem fusion_deterministic (w w2 : WeightTable) (tiers tiers2 : TierTable)
    (m m2 : SignalMap) (hw : w = w2) (ht : tiers = tiers2) (hm : m = m2) :
    (fuse w tiers m).composite = (fuse w2 tiers2 m2).composite ∧
    (fuse w tiers m).classification = (fuse w2 tiers2 m2).classification := by
  subst hw; subst ht; subst hm
  exact ⟨rfl, rfl⟩

theorem fusion_deterministic_witness :
    stdWeights = stdWeights ∧
    ((fuse stdWeights stdTiers scenarioA).composite =
      (fuse stdWeights stdTiers scenarioA).composite ∧
    (fuse stdWeights stdTiers scenarioA).classification =
      (fuse stdWeights stdTiers scenarioA).classification) :=
  ⟨rfl, fusion_deterministic stdWeights stdWeights stdTiers stdTiers
    scenarioA scenarioA rfl rfl rfl⟩

/-- Claim C2: for every base weight table (with positive weights, as a table
validated to sum to 1) and every signal map leaving a non-empty available
set, the redistributed weights `base_weight[n] / Σ base_weight[m]` sum to
exactly 1 (hence to 1 within any epsilon). -/
theorem redistributed_weights_sum_one (w : WeightTable) (m : SignalMap)
    (hw : ∀ p ∈ w, 0 < p.2) (hne : availableOf w m ≠ []) :
    ((redistributed w m).map Prod.snd).sum = 1 := by
  have hT : totalWeight (availableOf w m) ≠ 0 := ne_of_gt (totalWeight_pos hw hne)
  simp only [redistributed, List.map_map]
  have hcomp :
      (Prod.snd ∘ fun t : String × ℚ × ℚ =>
        (t.1, t.2.1 / totalWeight (availableOf w m))) =
      fun t : String × ℚ × ℚ => t.2.1 * (totalWeight (availableOf w m))⁻¹ := by
    funext t
    simp [div_eq_mul_inv]
  rw [hcomp, List.sum_map_mul_right]
  rw [← totalWeight]
  exact mul_inv_cancel₀ hT

theorem redistributed_weights_sum_one_witness :
    (∀ p ∈ stdWeights, 0 < p.2) ∧ availableOf stdWeights scenarioB ≠ [] ∧
    ((redistributed stdWeights scenarioB).map Prod.snd).sum = 1 :=
  ⟨by norm_num [stdWeights], by rw [availableOf_B]; simp [availB],
   redistributed_weights_sum_one stdWeights scenarioB (by norm_num [stdWeights])
     (by rw [availableOf_B]; simp [availB])⟩

/-- Claim C3: for every SignalResult map in which no signal has status ok
with a non-null score (the available set is empty), the FusionEngine returns
a null composite score and classification "unknown". -/
theorem fusion_all_missing (w : WeightTable) (tiers : TierTable) (m : SignalMap)
    (h : availableOf w m = []) :
    fuse w tiers m = ⟨none, "unknown"⟩ := by
  simp [fuse, h]

theorem fusion_all_missing_witness :
    availableOf stdWeights allFailed = [] ∧
    fuse stdWeights stdTiers allFailed = ⟨none, "unknown"⟩ :=
  ⟨rfl, fusion_all_missing stdWeights stdTiers allFailed rfl⟩

/-- Claim C4: for every sorted tier table, whenever the composite score is
non-null the classification is the highest tier whose lower bound is at most
the score (or "unknown" when no tier qualifies); in particular Scenario A
(all five signals present at 0.8/0.2/0.6/0.5/0.1 under base weights
0.40/0.25/0.20/0.10/0.05) yields composite 0.545 = 109/200 and
classification "suspicious". -/
theorem classification_highest_tier :
    (∀ (w : WeightTable) (tiers : TierTable) (m : SignalMap) (x : ℚ),
      sortedTiers tiers → (fuse w tiers m).composite = some x →
      ((∃ t, pickTier tiers x = some t ∧
          (fuse w tiers m).classification = t.1 ∧ t ∈ tiers ∧ t.2 ≤ x ∧
          ∀ u ∈ tiers, u.2 ≤ x → u.2 ≤ t.2) ∨
        ((∀ u ∈ tiers, ¬ u.2 ≤ x) ∧
          (fuse w tiers m).classification = "unknown"))) ∧
    fuse stdWeights stdTiers scenarioA = ⟨some (109/200), "suspicious"⟩ := by
  constructor
  · intro w tiers m x hs hx
    by_cases hav : availableOf w m = []
    · simp [fuse, hav] at hx
    · have hfuse : fuse w tiers m =
          ⟨some (compositeOf (availableOf w m)),
            classify tiers (compositeOf (availableOf w m))⟩ := by
        simp [fuse, hav]
      rw [hfuse] at hx
      simp only [Option.some_inj] at hx
      rcases hpick : pickTier tiers x with _ | t
      · right
        refine ⟨(pickTier_eq_none_iff tiers x).mp hpick, ?_⟩
        rw [hfuse]
        simp [classify, hx, hpick]
      · left
        obtain ⟨hmem, hle, hmax⟩ := pickTier_some_spec tiers x t hs hpick
        refine ⟨t, rfl, ?_, hmem, hle, hmax⟩
        rw [hfuse]
        simp [classify, hx, hpick]
  · exact fuse_A

theorem classification_highest_tier_witness :
    sortedTiers stdTiers ∧
    ((∃ t, pickTier stdTiers (109/200) = some t ∧
        (fuse stdWeights stdTiers scenarioA).classification = t.1 ∧
        t ∈ stdTiers ∧ t.2 ≤ 109/200 ∧
        ∀ u ∈ stdTiers, u.2 ≤ 109/200 → u.2 ≤ t.2) ∨
      ((∀ u ∈ stdTiers, ¬ u.2 ≤ 109/200) ∧
        (fuse stdWeights stdTiers scenarioA).classification = "unknown")) :=
  ⟨by norm_num [sortedTiers, stdTiers],
   classification_highest_tier.1 stdWeights stdTiers scenarioA (109/200)
     (by norm_num [sortedTiers, stdTiers]) (by rw [fuse_A])⟩

/-- Claim C5 as stated is false on the spec's own algorithm: with only
semantic (0.9, base weight 0.40) and safety (0.1, base weight 0.25)
available, the redistributed weights are 8/13 and 5/13, not exactly
0.615/0.385, and the composite is 77/130 = 0.59230..., not exactly 0.592. -/
theorem scenarioB_exact_values_counterexample :
    (fuse stdWeights stdTiers scenarioB).composite ≠ some (592/1000) ∧
    redistributed stdWeights scenarioB ≠
      [("semantic", 615/1000), ("safety", 385/1000)] := by
  constructor
  · rw [fuse_B]
    simp only [ne_eq, Option.some_inj]
    norm_num
  · rw [redistributed_B]
    simp only [ne_eq, List.cons.injEq, Prod.mk.injEq]
    norm_num

/-- Claim C5 amended: when only semantic (0.9, base weight 0.40) and safety
(0.1, base weight 0.25) are available, the redistributed weights are exactly
8/13 and 5/13 — 0.615 and 0.385 when rounded to three decimals — and the
composite score is exactly 77/130, which is 0.592 when rounded to three
decimals. -/
theorem scenarioB_amended :
    (fuse stdWeights stdTiers scenarioB).composite = some (77/130) ∧
    redistributed stdWeights scenarioB = [("semantic", 8/13), ("safety", 5/13)] ∧
    |(77 : ℚ)/130 - 592/1000| < 1/1000 ∧
    |(8 : ℚ)/13 - 615/1000| < 1/1000 ∧
    |(5 : ℚ)/13 - 385/1000| < 1/1000 := by
  refine ⟨by rw [fuse_B], redistributed_B, ?_, ?_, ?_⟩ <;>
    rw [abs_sub_lt_iff] <;> norm_num

/-- Claim C6: for every base weight table with positive weights and every
SignalResult map in which exactly one signal is available (status ok,
non-null score), the composite score equals that signal's score. -/
theorem fusion_single_signal (w : WeightTable) (tiers : TierTable)
    (m : SignalMap) (n : String) (bw s : ℚ)
    (hw : ∀ p ∈ w, 0 < p.2) (h : availableOf w m = [(n, bw, s)]) :
    (fuse w tiers m).composite = some s := by
  have hbw : (0 : ℚ) < bw := by
    have := mem_availableOf (t := (n, bw, s)) (by rw [h]; exact List.mem_singleton_self _)
    exact hw _ this
  have hav : availableOf w m ≠ [] := by rw [h]; simp
  have : compositeOf (availableOf w m) = s := by
    rw [h]
    simp [compositeOf, totalWeight, div_self (ne_of_gt hbw)]
  simp [fuse, hav, this]

theorem fusion_single_signal_witness :
    (∀ p ∈ stdWeights, 0 < p.2) ∧
    availableOf stdWeights onlySemantic = [("semantic", 2/5, 9/10)] ∧
    (fuse stdWeights stdTiers onlySemantic).composite = some (9/10) :=
  ⟨by norm_num [stdWeights], rfl,
   fusion_single_signal stdWeights stdTiers onlySemantic "semantic" (2/5) (9/10)
     (by norm_num [stdWeights]) rfl⟩

/-! ## Lemmas about the case graph store -/

lemma foldl_preserve {α β : Type} (P : β → Prop) (f : β → α → β)
    (h : ∀ st a, P st → P (f st a)) :
    ∀ (l : List α) (s : β), P s → P (l.foldl f s) := by
  intro l
  induction l with
  | nil => intro s hs; exact hs
  | cons a l ih => intro s hs; exact ih _ (h s a hs)

lemma foldl_mono_nat {α β : Type} (g : β → ℕ) (f : β → α → β)
    (h : ∀ st a, g st ≤ g (f st a)) :
    ∀ (l : List α) (s : β), g s ≤ g (l.foldl f s) := by
  intro l
  induction l with
  | nil => intro s; exact le_refl _
  | cons a l ih => intro s; exact (h s a).trans (ih (f s a))

lemma edges_upsertNode (s : GraphState) (n : GraphNode) :
    (upsertNode s n).edges = s.edges := by
  unfold upsertNode; split <;> rfl

lemma nodes_addEdge (s : GraphState) (src tgt : String) (k : EdgeKind) (cid : String) :
    (addEdge s src tgt k cid).nodes = s.nodes := by
  unfold addEdge; split <;> rfl

lemma nodeCount_upsertNode_le (s : GraphState) (n : GraphNode) :
    nodeCount s ≤ nodeCount (upsertNode s n) := by
  unfold upsertNode nodeCount
  split
  · exact le_refl _
  · simp

lemma edgeCount_addEdge_le (s : GraphState) (src tgt : String) (k : EdgeKind) (cid : String) :
    edgeCount s ≤ edgeCount (addEdge s src tgt k cid) := by
  unfold addEdge edgeCount
  split
  · simp
  · simp

lemma nodeCount_addEdge (s : GraphState) (src tgt : String) (k : EdgeKind) (cid : String) :
    nodeCount (addEdge s src tgt k cid) = nodeCount s := by
  unfold nodeCount
  rw [nodes_addEdge]

lemma nodeCount_tagEdgeFold (tags : List String) (c : String) (s : GraphState) :
    nodeCount (tags.foldl (fun st tg => addEdge st c tg .tagged c) s) = nodeCount s := by
  induction tags generalizing s with
  | nil => rfl
  | cons a l ih => rw [List.foldl_cons, ih, nodeCount_addEdge]

lemma nodeCount_ingest_le (s : GraphState) (i : IngestInput) :
    nodeCount s ≤ nodeCount (ingest s i) := by
  simp only [ingest]
  rw [nodeCount_tagEdgeFold, nodeCount_addEdge, nodeCount_addEdge]
  exact (nodeCount_upsertNode_le s _).trans
    ((nodeCount_upsertNode_le _ _).trans
      ((nodeCount_upsertNode_le _ _).trans
        (foldl_mono_nat nodeCount _ (fun st a => nodeCount_upsertNode_le st _) i.tags _)))

lemma edgeCount_ingest_le (s : GraphState) (i : IngestInput) :
    edgeCount s ≤ edgeCount (ingest s i) := by
  simp only [ingest]
  have hup : ∀ (st : GraphState) (n : GraphNode),
      edgeCount (upsertNode st n) = edgeCount st := by
    intro st n; unfold edgeCount; rw [edges_upsertNode]
  have hfoldup : ∀ (l : List String) (st : GraphState),
      edgeCount (l.foldl (fun st2 tg => upsertNode st2 ⟨tg, .narrativeTag⟩) st) =
        edgeCount st := by
    intro l
    induction l with
    | nil => intro st; rfl
    | cons a l ih => intro st; rw [List.foldl_cons, ih, hup]
  calc edgeCount s
      = edgeCount (i.tags.foldl (fun st tg => upsertNode st ⟨tg, .narrativeTag⟩)
          (upsertNode (upsertNode (upsertNode s ⟨i.actorId, .actor⟩)
            ⟨i.caseId, .content⟩) ⟨i.platform, .platform⟩)) := by
        rw [hfoldup, hup, hup, hup]
    _ ≤ edgeCount (addEdge (i.tags.foldl (fun st tg => upsertNode st ⟨tg, .narrativeTag⟩)
          (upsertNode (upsertNode (upsertNode s ⟨i.actorId, .actor⟩)
            ⟨i.caseId, .content⟩) ⟨i.platform, .platform⟩)) i.actorId i.caseId
          .authored i.caseId) := edgeCount_addEdge_le _ _ _ _ _
    _ ≤ _ := (edgeCount_addEdge_le _ _ _ _ _).trans
        (foldl_mono_nat edgeCount _ (fun st a => edgeCount_addEdge_le st _ _ _ _) i.tags _)

lemma mem_addCaseId_self (cid : String) (l : List String) : cid ∈ addCaseId cid l := by
  unfold addCaseId
  split
  · assumption
  · simp

lemma mem_addCaseId_of_mem {x : String} (cid : String) {l : List String}
    (h : x ∈ l) : x ∈ addCaseId cid l := by
  unfold addCaseId
  split
  · exact h
  · exact List.mem_append_left _ h

lemma addCaseId_of_mem {cid : String} {l : List String} (h : cid ∈ l) :
    addCaseId cid l = l := by
  unfold addCaseId
  rw [if_pos h]

lemma bumpEdge_src (src tgt : String) (k : EdgeKind) (cid : String) (e : GraphEdge) :
    (bumpEdge src tgt k cid e).src = e.src := by
  unfold bumpEdge; split <;> rfl

lemma bumpEdge_tgt (src tgt : String) (k : EdgeKind) (cid : String) (e : GraphEdge) :
    (bumpEdge src tgt k cid e).tgt = e.tgt := by
  unfold bumpEdge; split <;> rfl

lemma bumpEdge_kind (src tgt : String) (k : EdgeKind) (cid : String) (e : GraphEdge) :
    (bumpEdge src tgt k cid e).kind = e.kind := by
  unfold bumpEdge; split <;> rfl

lemma mem_caseIds_bumpEdge {x : String} (src tgt : String) (k : EdgeKind) (cid : String)
    {e : GraphEdge} (h : x ∈ e.caseIds) : x ∈ (bumpEdge src tgt k cid e).caseIds := by
  unfold bumpEdge
  split
  · exact mem_addCaseId_of_mem cid h
  · exact h

lemma bumpEdge_matched {src tgt : String} {k : EdgeKind} (cid : String) {e : GraphEdge}
    (h : e.src = src ∧ e.tgt = tgt ∧ e.kind = k) :
    cid ∈ (bumpEdge src tgt k cid e).caseIds := by
  unfold bumpEdge
  rw [if_pos h]
  exact mem_addCaseId_self cid e.caseIds

lemma bumpEdge_eq_self {src tgt : String} {k : EdgeKind} {cid : String} {e : GraphEdge}
    (h : (e.src = src ∧ e.tgt = tgt ∧ e.kind = k) → cid ∈ e.caseIds) :
    bumpEdge src tgt k cid e = e := by
  unfold bumpEdge
  split
  · rename_i hm
    rw [addCaseId_of_mem (h hm)]
  · rfl

lemma addEdge_of_edgeDone {s : GraphState} {src tgt : String} {k : EdgeKind} {cid : String}
    (h : edgeDone s src tgt k cid) : addEdge s src tgt k cid = s := by
  obtain ⟨⟨e0, he0, hm0⟩, hall⟩ := h
  unfold addEdge
  rw [if_pos (by simp only [List.any_eq_true, decide_eq_true_eq]; exact ⟨e0, he0, hm0⟩)]
  have : s.edges.map (bumpEdge src tgt k cid) = s.edges := by
    rw [List.map_congr_left (fun e he => bumpEdge_eq_self (hall e he))]
    simp
  rw [this]

lemma edgeDone_addEdge_self (s : GraphState) (src tgt : String) (k : EdgeKind) (cid : String) :
    edgeDone (addEdge s src tgt k cid) src tgt k cid := by
  unfold addEdge
  split
  · rename_i hc
    simp only [List.any_eq_true, decide_eq_true_eq] at hc
    obtain ⟨e0, he0, hm0⟩ := hc
    constructor
    · refine ⟨bumpEdge src tgt k cid e0, List.mem_map_of_mem _ he0, ?_⟩
      rw [bumpEdge_src, bumpEdge_tgt, bumpEdge_kind]
      exact hm0
    · intro e he hm
      simp only [List.mem_map] at he
      obtain ⟨e1, he1, rfl⟩ := he
      rw [bumpEdge_src, bumpEdge_tgt, bumpEdge_kind] at hm
      exact bumpEdge_matched cid hm
  · rename_i hc
    simp only [List.any_eq_true, decide_eq_true_eq, not_exists, not_and] at hc
    constructor
    · refine ⟨⟨src, tgt, k, [cid]⟩, ?_, ⟨rfl, rfl, rfl⟩⟩
      simp
    · intro e he hm
      rcases List.mem_append.mp he with he1 | he2
      · exact absurd hm (by push_neg; intro h1 h2; exact fun h3 => hc e he1 h1 h2 h3)
      · simp only [List.mem_singleton] at he2
        subst he2
        simp

lemma edgeDone_addEdge_mono {s : GraphState} {src tgt : String} {k : EdgeKind} {cid : String}
    (a b : String) (k2 : EdgeKind) (h : edgeDone s src tgt k cid) :
    edgeDone (addEdge s a b k2 cid) src tgt k cid := by
  obtain ⟨⟨e0, he0, hm0⟩, hall⟩ := h
  unfold addEdge
  split
  · constructor
    · refine ⟨bumpEdge a b k2 cid e0, List.mem_map_of_mem _ he0, ?_⟩
      rw [bumpEdge_src, bumpEdge_tgt, bumpEdge_kind]
      exact hm0
    · intro e he hm
      simp only [List.mem_map] at he
      obtain ⟨e1, he1, rfl⟩ := he
      rw [bumpEdge_src, bumpEdge_tgt, bumpEdge_kind] at hm
      exact mem_caseIds_bumpEdge a b k2 cid (hall e1 he1 hm)
  · constructor
    · exact ⟨e0, List.mem_append_left _ he0, hm0⟩
    · intro e he hm
      rcases List.mem_append.mp he with he1 | he2
      · exact hall e he1 hm
      · simp only [List.mem_singleton] at he2
        subst he2
        simp

lemma edgeDone_upsertNode {s : GraphState} {src tgt : String} {k : EdgeKind} {cid : String}
    (n : GraphNode) (h : edgeDone s src tgt k cid) :
    edgeDone (upsertNode s n) src tgt k cid := by
  unfold edgeDone
  rw [edges_upsertNode]
  exact h

lemma hasNodeB_upsertNode_mono {s : GraphState} {x : String} (n : GraphNode)
    (h : hasNodeB s x = true) : hasNodeB (upsertNode s n) x = true := by
  unfold upsertNode
  split
  · exact h
  · unfold hasNodeB at h ⊢
    simp only [List.any_append, Bool.or_eq_true]
    exact Or.inl h

lemma hasNodeB_upsertNode_self (s : GraphState) (n : GraphNode) :
    hasNodeB (upsertNode s n) n.id = true := by
  unfold upsertNode hasNodeB
  split
  · rename_i hc
    exact hc
  · simp

lemma hasNodeB_addEdge (s : GraphState) (src tgt : String) (k : EdgeKind) (cid x : String) :
    hasNodeB (addEdge s src tgt k cid) x = hasNodeB s x := by
  unfold hasNodeB
  rw [nodes_addEdge]

lemma hasNodeB_tagFold {tags : List String} {s : GraphState} {x : String}
    (h : hasNodeB s x = true) :
    hasNodeB (tags.foldl (fun st tg => upsertNode st ⟨tg, .narrativeTag⟩) s) x = true :=
  foldl_preserve (fun st => hasNodeB st x = true) _
    (fun _ _ hst => hasNodeB_upsertNode_mono _ hst) tags s h

lemma hasNodeB_tagFold_mem :
    ∀ (tags : List String) (s : GraphState), ∀ tg ∈ tags,
      hasNodeB (tags.foldl (fun st t2 => upsertNode st ⟨t2, .narrativeTag⟩) s) tg = true := by
  intro tags
  induction tags with
  | nil => intro s tg h; cases h
  | cons a l ih =>
    intro s tg h
    rcases List.mem_cons.mp h with rfl | h2
    · rw [List.foldl_cons]
      exact hasNodeB_tagFold (hasNodeB_upsertNode_self s ⟨tg, .narrativeTag⟩)
    · rw [List.foldl_cons]
      exact ih _ tg h2

lemma edgeDone_tagEdgeFold {tags : List String} {s : GraphState} {src tgt c : String}
    {k : EdgeKind} (h : edgeDone s src tgt k c) :
    edgeDone (tags.foldl (fun st tg => addEdge st c tg .tagged c) s) src tgt k c :=
  foldl_preserve (fun st => edgeDone st src tgt k c) _
    (fun _ a hst => edgeDone_addEdge_mono c a .tagged hst) tags s h

lemma edgeDone_tagEdgeFold_mem :
    ∀ (tags : List String) (s : GraphState) (c : String), ∀ tg ∈ tags,
      edgeDone (tags.foldl (fun st t2 => addEdge st c t2 .tagged c) s) c tg .tagged c := by
  intro tags
  induction tags with
  | nil => intro s c tg h; cases h
  | cons a l ih =>
    intro s c tg h
    rcases List.mem_cons.mp h with rfl | h2
    · rw [List.foldl_cons]
      exact edgeDone_tagEdgeFold (edgeDone_addEdge_self s c tg .tagged c)
    · rw [List.foldl_cons]
      exact ih _ c tg h2

lemma upsertNode_of_hasNodeB (s : GraphState) (n : GraphNode)
    (h : hasNodeB s n.id = true) : upsertNode s n = s := by
  unfold hasNodeB at h
  unfold upsertNode
  rw [if_pos h]

lemma tagFold_of_hasNodeB {tags : List String} {s : GraphState}
    (h : ∀ tg ∈ tags, hasNodeB s tg = true) :
    tags.foldl (fun st tg => upsertNode st ⟨tg, .narrativeTag⟩) s = s := by
  induction tags with
  | nil => rfl
  | cons a l ih =>
    rw [List.foldl_cons,
      upsertNode_of_hasNodeB _ ⟨a, .narrativeTag⟩ (h a (List.mem_cons_self a l))]
    exact ih (fun tg htg => h tg (List.mem_cons_of_mem a htg))

lemma tagEdgeFold_of_edgeDone {tags : List String} {s : GraphState} {c : String}
    (h : ∀ tg ∈ tags, edgeDone s c tg .tagged c) :
    tags.foldl (fun st tg => addEdge st c tg .tagged c) s = s := by
  induction tags with
  | nil => rfl
  | cons a l ih =>
    rw [List.foldl_cons, addEdge_of_edgeDone (h a (List.mem_cons_self a l))]
    exact ih (fun tg htg => h tg (List.mem_cons_of_mem a htg))

lemma hasNodeB_tagEdgeFold (tags : List String) (c x : String) (s : GraphState) :
    hasNodeB (tags.foldl (fun st tg => addEdge st c tg .tagged c) s) x = hasNodeB s x := by
  induction tags generalizing s with
  | nil => rfl
  | cons a l ih => rw [List.foldl_cons, ih, hasNodeB_addEdge]

lemma ingest_of_ingestDone {s : GraphState} {i : IngestInput}
    (h : ingestDone s i) : ingest s i = s := by
  obtain ⟨hact, hcase, hplat, htags, hauth, hpost, htagged⟩ := h
  simp only [ingest]
  rw [upsertNode_of_hasNodeB s ⟨i.actorId, .actor⟩ hact,
    upsertNode_of_hasNodeB s ⟨i.caseId, .content⟩ hcase,
    upsertNode_of_hasNodeB s ⟨i.platform, .platform⟩ hplat,
    tagFold_of_hasNodeB htags,
    addEdge_of_edgeDone hauth, addEdge_of_edgeDone hpost,
    tagEdgeFold_of_edgeDone htagged]

lemma ingestDone_ingest (s : GraphState) (i : IngestInput) :
    ingestDone (ingest s i) i := by
  simp only [ingest, ingestDone]
  refine ⟨?_, ?_, ?_, ?_, ?_, ?_, ?_⟩
  · rw [hasNodeB_tagEdgeFold, hasNodeB_addEdge, hasNodeB_addEdge]
    exact hasNodeB_tagFold (hasNodeB_upsertNode_mono _ (hasNodeB_upsertNode_mono _
      (hasNodeB_upsertNode_self s ⟨i.actorId, .actor⟩)))
  · rw [hasNodeB_tagEdgeFold, hasNodeB_addEdge, hasNodeB_addEdge]
    exact hasNodeB_tagFold (hasNodeB_upsertNode_mono _
      (hasNodeB_upsertNode_self _ ⟨i.caseId, .content⟩))
  · rw [hasNodeB_tagEdgeFold, hasNodeB_addEdge, hasNodeB_addEdge]
    exact hasNodeB_tagFold (hasNodeB_upsertNode_self _ ⟨i.platform, .platform⟩)
  · intro tg htg
    rw [hasNodeB_tagEdgeFold, hasNodeB_addEdge, hasNodeB_addEdge]
    exact hasNodeB_tagFold_mem i.tags _ tg htg
  · exact edgeDone_tagEdgeFold (edgeDone_addEdge_mono _ _ _
      (edgeDone_addEdge_self _ i.actorId i.caseId .authored i.caseId))
  · exact edgeDone_tagEdgeFold (edgeDone_addEdge_self _ i.caseId i.platform .postedOn i.caseId)
  · intro tg htg
    exact edgeDone_tagEdgeFold_mem i.tags _ i.caseId tg htg

/-! ## Claim theorem for the case graph store -/

/-- Claim C7: across every sequence of CaseGraphStore ingests, node and edge
counts are monotonically non-decreasing, and re-ingesting a case that was
already ingested is the identity — in particular the node count, the edge
count and the set of edges attributed to that case are unchanged. -/
theorem graph_append_only :
    (∀ (s : GraphState) (i : IngestInput),
      nodeCount s ≤ nodeCount (ingest s i) ∧ edgeCount s ≤ edgeCount (ingest s i)) ∧
    (∀ (s : GraphState) (l : List IngestInput),
      nodeCount s ≤ nodeCount (ingestAll s l) ∧ edgeCount s ≤ edgeCount (ingestAll s l)) ∧
    (∀ (s : GraphState) (i : IngestInput), ingest (ingest s i) i = ingest s i) ∧
    (∀ (s : GraphState) (i : IngestInput),
      nodeCount (ingest (ingest s i) i) = nodeCount (ingest s i) ∧
      edgeCount (ingest (ingest s i) i) = edgeCount (ingest s i) ∧
      caseEdges (ingest (ingest s i) i) i.caseId = caseEdges (ingest s i) i.caseId) := by
  have hidem : ∀ (s : GraphState) (i : IngestInput), ingest (ingest s i) i = ingest s i :=
    fun s i => ingest_of_ingestDone (ingestDone_ingest s i)
  refine ⟨fun s i => ⟨nodeCount_ingest_le s i, edgeCount_ingest_le s i⟩, ?_, hidem, ?_⟩
  · intro s l
    exact ⟨foldl_mono_nat nodeCount ingest (fun st a => nodeCount_ingest_le st a) l s,
      foldl_mono_nat edgeCount ingest (fun st a => edgeCount_ingest_le st a) l s⟩
  · intro s i
    rw [hidem s i]
    exact ⟨rfl, rfl, rfl⟩

/-! ## Lemmas about the coordination detector -/

lemma qualifies_of_pair {window : ℕ} {posts : List Post} {pa pb : Post}
    (hpa : pa ∈ posts) (hpb : pb ∈ posts) (hne : pa.actor ≠ pb.actor)
    (htag : ∃ t, t ∈ pa.tags ∧ t ∈ pb.tags) (hplat : pa.platform ≠ pb.platform)
    (htime : |pa.time - pb.time| ≤ (window : ℤ)) :
    qualifies window posts pa.actor pb.actor = true := by
  obtain ⟨t, hta, htb⟩ := htag
  simp only [qualifies, List.any_eq_true, Bool.and_eq_true, decide_eq_true_eq, and_assoc]
  exact ⟨hne, pa, hpa, rfl, pb, hpb, rfl, ⟨t, hta, t, htb, rfl⟩, hplat, htime⟩

lemma mem_actorsOf {posts : List Post} {p : Post} (hp : p ∈ posts) :
    p.actor ∈ actorsOf posts := by
  simp only [actorsOf, List.mem_dedup, List.mem_map]
  exact ⟨p, hp, rfl⟩

lemma mem_alertedActors {window : ℕ} {posts : List Post} {pa pb : Post}
    (hpa : pa ∈ posts) (hpb : pb ∈ posts) (hne : pa.actor ≠ pb.actor)
    (htag : ∃ t, t ∈ pa.tags ∧ t ∈ pb.tags) (hplat : pa.platform ≠ pb.platform)
    (htime : |pa.time - pb.time| ≤ (window : ℤ)) :
    pa.actor ∈ alertedActors window posts := by
  simp only [alertedActors, List.mem_filter, List.any_eq_true]
  exact ⟨mem_actorsOf hpa, pb.actor, mem_actorsOf hpb,
    qualifies_of_pair hpa hpb hne htag hplat htime⟩

/-! ## Claim theorem for the coordination detector -/

/-- Claim C8: two actors that each authored content sharing a narrative
tag on two distinct platforms inside the lookback window are both
alerted by the CoordinationDetector; when no such pair lies inside the
window, no actor is alerted. -/
theorem coordination_window_behavior :
    (∀ (window : ℕ) (posts : List Post) (pa pb : Post),
      pa ∈ posts → pb ∈ posts → pa.actor ≠ pb.actor →
      (∃ t, t ∈ pa.tags ∧ t ∈ pb.tags) → pa.platform ≠ pb.platform →
      |pa.time - pb.time| ≤ (window : ℤ) →
      pa.actor ∈ alertedActors window posts ∧
      pb.actor ∈ alertedActors window posts) ∧
    (∀ (window : ℕ) (posts : List Post),
      (∀ pa ∈ posts, ∀ pb ∈ posts, pa.actor ≠ pb.actor →
        (∃ t, t ∈ pa.tags ∧ t ∈ pb.tags) → pa.platform ≠ pb.platform →
        ¬(|pa.time - pb.time| ≤ (window : ℤ))) →
      alertedActors window posts = []) := by
  constructor
  · intro window posts pa pb hpa hpb hne htag hplat htime
    constructor
    · exact mem_alertedActors hpa hpb hne htag hplat htime
    · refine mem_alertedActors hpb hpa (Ne.symm hne) ?_ (Ne.symm hplat) ?_
      · obtain ⟨t, hta, htb⟩ := htag
        exact ⟨t, htb, hta⟩
      · rw [abs_sub_comm]
        exact htime
  · intro window posts hall
    rw [alertedActors, List.filter_eq_nil_iff]
    intro a ha
    simp only [List.any_eq_true, not_exists, not_and]
    intro b hb hq
    simp only [qualifies, List.any_eq_true, Bool.and_eq_true, decide_eq_true_eq,
      and_assoc] at hq
    obtain ⟨hne, x, hx, hxa, y, hy, hyb, htags, hplat, htime⟩ := hq
    have hxy : x.actor ≠ y.actor := by
      rw [hxa, hyb]
      exact hne
    obtain ⟨t, hta, u, htu, rfl⟩ := htags
    exact hall x hx y hy hxy ⟨t, hta, htu⟩ hplat htime

theorem coordination_window_behavior_witness :
    "actor-x" ∈ alertedActors 86400 scenarioCposts ∧
    "actor-y" ∈ alertedActors 86400 scenarioCposts :=
  coordination_window_behavior.1 86400 scenarioCposts
    ⟨"actor-x", "platform-1", ["election-fraud"], 0⟩
    ⟨"actor-y", "platform-2", ["election-fraud"], 3600⟩
    (by simp [scenarioCposts]) (by simp [scenarioCposts])
    (by decide) ⟨"election-fraud", by decide, by decide⟩ (by decide) (by decide)

/-! ## Claim theorem for the case record shape -/

/-- Claim C9: the spec's case record graph_summary carries exactly the six
fields node_count, edge_count, communities, cluster_scores,
coordination_alerts and propagation_chains, and each coordination alert
carries its actor identifier in the field actor_id; the case-detail
frontend instead reads cluster scores from the absent field gnn_clusters
(seeing an empty list on every spec-shaped record) and the actor
identifier from the absent field actor (seeing null on every spec-shaped
alert), while the alert list itself is read from the matching field
coordination_alerts. -/
theorem case_record_field_mismatch :
    (∀ (nc ec : ℚ) (co cl al pr : List Json),
      jkeys (mkGraphSummary nc ec co cl al pr) = graphSummaryKeys) ∧
    (∀ (a : String) (pe sh pl : List Json) (r : ℚ),
      jget (mkCoordinationAlert a pe sh pl r) "actor_id" = .str a) ∧
    "gnn_clusters" ∉ graphSummaryKeys ∧
    "actor" ∉ ["actor_id", "peer_actors", "shared_tags", "platforms", "risk"] ∧
    (∀ (nc ec : ℚ) (co cl al pr : List Json),
      gnnClustersOf (mkGraphSummary nc ec co cl al pr) = [] ∧
      jget (mkGraphSummary nc ec co cl al pr) "cluster_scores" = .arr cl ∧
      coordinationAlertsOf (mkGraphSummary nc ec co cl al pr) = al) ∧
    (∀ (a : String) (pe sh pl : List Json) (r : ℚ),
      alertActorOf (mkCoordinationAlert a pe sh pl r) = .null ∧
      jkeys (mkCoordinationAlert a pe sh pl r) =
        ["actor_id", "peer_actors", "shared_tags", "platforms", "risk"]) :=
  ⟨fun _ _ _ _ _ _ => rfl,
   fun _ _ _ _ _ => rfl,
   by decide,
   by decide,
   fun _ _ _ _ _ _ => ⟨rfl, rfl, rfl⟩,
   fun _ _ _ _ _ => ⟨rfl, rfl⟩⟩

/-! ## Lemmas about intake validation -/

lemma dropWhile_length_le {α : Type} (p : α → Bool) (l : List α) :
    (l.dropWhile p).length ≤ l.length := by
  induction l with
  | nil => simp
  | cons a t ih =>
    rw [List.dropWhile_cons]
    by_cases hp : p a
    · rw [if_pos hp]
      simp only [List.length_cons]
      exact ih.trans (Nat.le_succ _)
    · rw [if_neg hp]

lemma dropWhile_take {α : Type} (p : α → Bool) :
    ∀ (l : List α) (n : ℕ),
      (l.take n).dropWhile p = (l.dropWhile p).take (n - (l.takeWhile p).length) := by
  intro l
  induction l with
  | nil => intro n; simp
  | cons c t ih =>
    intro n
    cases n with
    | zero => simp
    | succ m =>
      rw [List.take_succ_cons, List.dropWhile_cons, List.dropWhile_cons,
        List.takeWhile_cons]
      by_cases hp : p c
      · rw [if_pos hp, if_pos hp, if_pos hp, ih]
        simp only [List.length_cons, Nat.succ_sub_succ]
      · rw [if_neg hp, if_neg hp, if_neg hp]
        simp only [List.length_nil, Nat.sub_zero, List.take_succ_cons]

lemma dropWhile_drop_length_le {α : Type} (p : α → Bool) :
    ∀ (l : List α) (j : ℕ),
      ((l.drop j).dropWhile p).length ≤ (l.dropWhile p).length := by
  intro l
  induction l with
  | nil => intro j; simp
  | cons c t ih =>
    intro j
    cases j with
    | zero => exact le_refl _
    | succ m =>
      rw [List.drop_succ_cons, List.dropWhile_cons]
      by_cases hp : p c
      · rw [if_pos hp]
        exact ih m
      · rw [if_neg hp]
        exact (ih m).trans ((dropWhile_length_le p t).trans (Nat.le_succ _))

lemma jsTrim_take_length_le (l : List Char) (n : ℕ) :
    (jsTrim (l.take n)).length ≤ (jsTrim l).length := by
  unfold jsTrim
  rw [dropWhile_take, List.length_reverse, List.length_reverse, List.reverse_take]
  exact dropWhile_drop_length_le _ _ _

/-! ## Claim theorem for intake validation -/

/-- Claim C10: a submission whose trimmed narrative text is shorter than
20 characters is rejected by both the intake form and the upload page
without calling the intake API, and the upload page truncates the
submitted text to at most 5000 characters. -/
theorem intake_min_length_and_truncation :
    (∀ (text region : List Char), (jsTrim text).length < 20 →
      handleSubmit text region = none) ∧
    (∀ (metaText content region : List Char),
      (jsTrim (if metaText ≠ [] then metaText else content)).length < 20 →
      handleAnalyzeFile metaText content region = none) ∧
    (∀ (metaText content region : List Char) (p : IntakePayload),
      handleAnalyzeFile metaText content region = some p →
      p.text = (if metaText ≠ [] then metaText else content).take 5000 ∧
      p.text.length ≤ 5000) := by
  refine ⟨?_, ?_, ?_⟩
  · intro text region h
    unfold handleSubmit minCharacters
    rw [if_pos (Or.inr h)]
  · intro metaText content region h
    have hlt : (jsTrim (analyzeText metaText content)).length < 20 :=
      lt_of_le_of_lt (jsTrim_take_length_le _ 5000) h
    simp only [handleAnalyzeFile]
    rw [if_pos (Or.inr hlt)]
  · intro metaText content region p hp
    simp only [handleAnalyzeFile] at hp
    by_cases h1 : analyzeText metaText content = [] ∨
        (jsTrim (analyzeText metaText content)).length < 20
    · rw [if_pos h1] at hp
      cases hp
    · rw [if_neg h1] at hp
      by_cases h2 : jsTrim region = []
      · rw [if_pos h2] at hp
        cases hp
      · rw [if_neg h2] at hp
        have := Option.some_inj.mp hp
        subst this
        refine ⟨rfl, ?_⟩
        exact List.length_take_le 5000 _

theorem intake_min_length_and_truncation_witness :
    (jsTrim ("too short").toList).length < 20 ∧
    handleSubmit ("too short").toList ("delhi").toList = none ∧
    handleAnalyzeFile ("too short").toList [] ("delhi").toList = none :=
  ⟨by decide,
   intake_min_length_and_truncation.1 ("too short").toList ("delhi").toList (by decide),
   intake_min_length_and_truncation.2.1 ("too short").toList [] ("delhi").toList (by decide)⟩

end MIC
